import Mathlib

/-!
# Verification of the iteratorFuncs lazy iterator layer

A shallow embedding of `src/index.ts` (the iteratorFuncs package).  JS
iterators are embedded as explicit state machines: a pull (`next(...args)`)
takes the current state and the caller-supplied next-argument and returns an
`IteratorResult` together with the successor state.

The claims under verification all concern *finite* producers (the filter
node's skip loop diverges on an upstream that yields failing values forever),
so a producer's state carries an explicit finite list of not-yet-consumed
upstream cells; the `consumes` field certifies that every non-terminal pull
consumes at least one cell.  This is exactly the finiteness assumption of the
specification and it is what makes the JS `while` loop in
`_FilteringIterator.next` a total Lean function.
-/

set_option maxHeartbeats 1000000
set_option maxRecDepth 2000

/-- A JS `IteratorResult`.  `yield value extra` is a non-terminal result
`{done: false, value, ...extra}`; `stop ret extra` is a terminal result
`{done: true, value: ret, ...extra}`.  The `extra` field models any further
pass-through fields that the object-spread `{...result, value: ...}` in the
source copies verbatim. -/
inductive IterResult (V R : Type) : Type where
  | yield (value : V) (extra : Nat)
  | stop (ret : R) (extra : Nat)
deriving DecidableEq, Repr

/-- The `done` flag of an `IteratorResult`. -/
def IterResult.done {V R : Type} : IterResult V R → Bool
  | .yield _ _ => false
  | .stop _ _ => true

/-- A synchronous pull-producer (anything satisfying the JS iterator
protocol, including the nodes the package builds).  The state is a pair of a
finite list of remaining upstream cells (of type `α`) and auxiliary state `τ`;
`step` embeds `next(...args)`.  `consumes` certifies finiteness: a
non-terminal pull strictly consumes upstream cells. -/
structure Iter (α τ V R N : Type) : Type where
  step : List α → τ → N → IterResult V R × List α × τ
  consumes : ∀ l t n, ((step l t n).1).done = false →
    ((step l t n).2.1).length < l.length

/-- The iterator of a concrete finite collection (e.g. `set.values()` or a
generator over a list): yields the list cells in order, then reports
`{done: true}` forever. -/
def listIterator {α N : Type} : Iter α Unit α Unit N where
  step l _ _ :=
    match l with
    | [] => (.stop () 0, [], ())
    | v :: rest => (.yield v 0, rest, ())
  consumes l t n h := by
    cases l with
    | nil => simp [IterResult.done] at h
    | cons v rest => simp

/-- `SyncAugmentedIterators._MappingIterator.next`: pull the upstream; if the
result is non-terminal, return `{...result, value: mapper(result.value)}`;
otherwise return the terminal result unchanged (the mapper is not invoked). -/
def mapIterator {α τ V W R N : Type} (iterator : Iter α τ V R N)
    (mapper : V → W) : Iter α τ W R N where
  step l t n :=
    match iterator.step l t n with
    | (.yield v e, l', t') => (.yield (mapper v) e, l', t')
    | (.stop r e, l', t') => (.stop r e, l', t')
  consumes l t n h := by
    have hc := iterator.consumes l t n
    rcases hs : iterator.step l t n with ⟨r, l', t'⟩
    rw [hs] at hc
    cases r with
    | yield v e => simpa [hs] using hc rfl
    | stop r e => simp [hs, IterResult.done] at h

/-- `SyncAugmentedIterators._ReducingIterator.next`: the carry state is the
`τ`-component extension `C`.  On a non-terminal upstream result the carry is
updated with `reducer(carry, value)` and returned as the yielded value
(`{...result, value: this.state}`); a terminal result is returned as-is, with
the carry untouched and the reducer not invoked.  The `initial` constructor
argument of `reduceIterator` is the initial `C`-component of the state. -/
def reduceIterator {α τ V C R N : Type} (iterator : Iter α τ V R N)
    (reducer : C → V → C) : Iter α (τ × C) C R N where
  step l tc n :=
    match iterator.step l tc.1 n with
    | (.yield v e, l', t') =>
        let state := reducer tc.2 v
        (.yield state e, l', t', state)
    | (.stop r e, l', t') => (.stop r e, l', t', tc.2)
  consumes l tc n h := by
    have hc := iterator.consumes l tc.1 n
    rcases hs : iterator.step l tc.1 n with ⟨r, l', t'⟩
    rw [hs] at hc
    cases r with
    | yield v e => simpa [hs] using hc rfl
    | stop r e => simp [hs, IterResult.done] at h

/-- The skip loop of `SyncAugmentedIterators._FilteringIterator.next`:
`let result = this.iterable.next(...args); while (!result.done &&
!this.filterer(result.value)) { result = this.iterable.next(...args); }`.
Note that every repeated pull passes the same `args`.  Termination: each
failed iteration consumed upstream cells (`consumes`). -/
def filterNext {α τ V R N : Type} (iterator : Iter α τ V R N)
    (filterer : V → Bool) (l : List α) (t : τ) (n : N) :
    IterResult V R × List α × τ :=
  match h : iterator.step l t n with
  | (.stop r e, l', t') => (.stop r e, l', t')
  | (.yield v e, l', t') =>
      if filterer v then (.yield v e, l', t')
      else filterNext iterator filterer l' t' n
termination_by l.length
decreasing_by
  have hc := iterator.consumes l t n
  rw [h] at hc
  exact hc rfl

/-- `SyncAugmentedIterators._FilteringIterator` as a producer: its `next` is
the skip loop `filterNext`. -/
def filterIterator {α τ V R N : Type} (iterator : Iter α τ V R N)
    (filterer : V → Bool) : Iter α τ V R N where
  step l t n := filterNext iterator filterer l t n
  consumes l t n := by
    suffices hgen : ∀ (len : Nat) (l : List α) (t : τ), l.length ≤ len →
        ((filterNext iterator filterer l t n).1).done = false →
        ((filterNext iterator filterer l t n).2.1).length < l.length by
      exact hgen l.length l t le_rfl
    intro len
    induction len with
    | zero =>
      intro l t hle h
      exfalso
      rw [filterNext.eq_def] at h
      split at h
      · simp [IterResult.done] at h
      next v e l' t' hs =>
        have hc := iterator.consumes l t n
        rw [hs] at hc
        have := hc rfl
        omega
    | succ len ih =>
      intro l t hle h
      rw [filterNext.eq_def] at h ⊢
      split at h
      next r e l' t' hs => simp [IterResult.done] at h
      next v e l' t' hs =>
        have hlt : l'.length < l.length := by
          have hc := iterator.consumes l t n
          rw [hs] at hc
          exact hc rfl
        by_cases hf : filterer v
        · simp only [hf, if_true]
          exact hlt
        · simp only [hf, if_false] at h ⊢
          have hle' : l'.length ≤ len := by omega
          exact lt_trans (ih l' t' hle' h) hlt

/-- `AugmentedIterator.map`: `map(mapper) { return mapIterator(this, mapper); }`. -/
def Iter.map {α τ V W R N : Type} (self : Iter α τ V R N) (mapper : V → W) :
    Iter α τ W R N :=
  mapIterator self mapper

/-- `AugmentedIterator.filter`: `filter(filterer) { return filterIterator(this, filterer); }`. -/
def Iter.filter {α τ V R N : Type} (self : Iter α τ V R N) (filterer : V → Bool) :
    Iter α τ V R N :=
  filterIterator self filterer

/-- `AugmentedIterator.reduce`: `reduce(reducer, initial) { return reduceIterator(this, reducer, initial); }`. -/
def Iter.reduce {α τ V C R N : Type} (self : Iter α τ V R N) (reducer : C → V → C) :
    Iter α (τ × C) C R N :=
  reduceIterator self reducer

/-- `AugmentedIterator[Symbol.iterator]`: `[Symbol.iterator]() { return this; }`. -/
def Iter.symbolIterator {α τ V R N : Type} (self : Iter α τ V R N) : Iter α τ V R N :=
  self

/-- Draining an iterator the way `Array.from` / `for...of` does: call
`next()` (with a fixed argument `dflt`, modelling the absent argument)
until `done`, collecting the yielded values; also return the state the
iterator is left in after the terminal pull. -/
def drainRun {α τ V R N : Type} (it : Iter α τ V R N) (dflt : N)
    (l : List α) (t : τ) : List V × List α × τ :=
  match h : it.step l t dflt with
  | (.yield v _, l', t') =>
      let rest := drainRun it dflt l' t'
      (v :: rest.1, rest.2)
  | (.stop _ _, l', t') => ([], l', t')
termination_by l.length
decreasing_by
  have hc := it.consumes l t dflt
  rw [h] at hc
  exact hc rfl

/-- The sequence obtained by draining an iterator. -/
def drain {α τ V R N : Type} (it : Iter α τ V R N) (dflt : N)
    (l : List α) (t : τ) : List V :=
  (drainRun it dflt l t).1

/-- The results of a chain of pulls, one per supplied next-argument. -/
def pulls {α τ V R N : Type} (it : Iter α τ V R N) :
    List α → τ → List N → List (IterResult V R)
  | _, _, [] => []
  | l, t, n :: rest =>
      match it.step l t n with
      | (r, l', t') => r :: pulls it l' t' rest

/-- `eagerlyReduceIterator`: `let result = initial; for (const a of iterator)
{ result = reducer(result, a); } return result;`, with the iterator already
drained to its value list. -/
def eagerlyReduceIterator {V C : Type} (iterator : List V)
    (reducer : C → V → C) (initial : C) : C :=
  match iterator with
  | [] => initial
  | a :: rest => eagerlyReduceIterator rest reducer (reducer initial a)

/-- Spec-side reference sequence: the running fold, "a sequence of
intermediate accumulator states, one per input element consumed so far". -/
def runningFold {V C : Type} (reducer : C → V → C) (carry : C) :
    List V → List C
  | [] => []
  | v :: rest =>
      let c := reducer carry v
      c :: runningFold reducer c rest

/-- `filterNext` instrumented with the number of invocations of `filterer`
performed by the pull: the loop guard evaluates the predicate exactly once
per non-terminal upstream result examined (skipped candidates included),
and not at all on a terminal result. -/
def filterNextCount {α τ V R N : Type} (iterator : Iter α τ V R N)
    (filterer : V → Bool) (l : List α) (t : τ) (n : N) :
    (IterResult V R × List α × τ) × Nat :=
  match h : iterator.step l t n with
  | (.stop r e, l', t') => ((.stop r e, l', t'), 0)
  | (.yield v e, l', t') =>
      if filterer v then ((.yield v e, l', t'), 1)
      else
        let rest := filterNextCount iterator filterer l' t' n
        (rest.1, rest.2 + 1)
termination_by l.length
decreasing_by
  have hc := iterator.consumes l t n
  rw [h] at hc
  exact hc rfl

/-- Full-drain instrumentation for a filtering node: repeatedly pull it,
summing the per-pull predicate-invocation counts; `fuel` bounds the number
of node pulls (upstream length plus one always suffices). -/
def filterDrainCount {α τ V R N : Type} (iterator : Iter α τ V R N)
    (filterer : V → Bool) (dflt : N) :
    Nat → List α → τ → List V × Nat
  | 0, _, _ => ([], 0)
  | fuel + 1, l, t =>
      match filterNextCount iterator filterer l t dflt with
      | ((.yield v _, l', t'), k) =>
          let rest := filterDrainCount iterator filterer dflt fuel l' t'
          (v :: rest.1, k + rest.2)
      | ((.stop _ _, _, _), k) => ([], k)

/-- Probe producer, as the test suite builds with a generator capturing its
`yield` results: yields the cells of the list in order and records in the
auxiliary state every argument passed to its `next`. -/
def argLogIterator {α N : Type} : Iter α (List N) α Unit N where
  step l log n :=
    match l with
    | [] => (.stop () 0, [], log ++ [n])
    | v :: rest => (.yield v 0, rest, log ++ [n])
  consumes l log n h := by
    cases l with
    | nil => simp [IterResult.done] at h
    | cons v rest => simp

/-- A JS exception value: `TypeError` raised by the runtime (e.g. calling a
missing method) versus an explicit `new Error(msg)`. -/
inductive JsError : Type where
  | typeError (msg : String)
  | error (msg : String)
deriving DecidableEq, Repr

/-- An asynchronous pull-producer.  Its `next` returns a promise of an
`IteratorResult`; the scheduling model is single-threaded cooperative
suspension, so in this embedding every awaited promise is already resolved
and a pull is a plain transition - the structure mirrors `Iter` exactly. -/
structure AsyncIter (α τ V R N : Type) : Type where
  step : List α → τ → N → IterResult V R × List α × τ
  consumes : ∀ l t n, ((step l t n).1).done = false →
    ((step l t n).2.1).length < l.length

/-- `AsyncAugmentedIterators._ReducingIterator.next`: `const result = await
this.iterable.next(...args); if (!result.done) { this.state = await
this.reducer(this.state, result.value); return {...result, value:
this.state}; } return result;`. -/
def AsyncAugmentedIterators.ReducingIterator {α τ V C R N : Type}
    (iterable : AsyncIter α τ V R N) (reducer : C → V → C) :
    AsyncIter α (τ × C) C R N where
  step l tc n :=
    match iterable.step l tc.1 n with
    | (.yield v e, l', t') =>
        let state := reducer tc.2 v
        (.yield state e, l', t', state)
    | (.stop r e, l', t') => (.stop r e, l', t', tc.2)
  consumes l tc n h := by
    have hc := iterable.consumes l tc.1 n
    rcases hs : iterable.step l tc.1 n with ⟨r, l', t'⟩
    rw [hs] at hc
    cases r with
    | yield v e => simpa [hs] using hc rfl
    | stop r e => simp [hs, IterResult.done] at h

/-- `AugmentedAsyncIterator.map`: its body is `throw new Error('TODO');`
(the commented-out delegation to a `mapAsyncIterator` does not exist). -/
def AsyncIter.map {α τ V W R N : Type} (self : AsyncIter α τ V R N)
    (mapper : V → W) : Except JsError (AsyncIter α τ W R N) :=
  .error (.error "TODO")

/-- `AugmentedAsyncIterator.filter`: its body is `throw new Error('TODO');`. -/
def AsyncIter.filter {α τ V R N : Type} (self : AsyncIter α τ V R N)
    (filterer : V → Bool) : Except JsError (AsyncIter α τ V R N) :=
  .error (.error "TODO")

/-- `AugmentedAsyncIterator.reduce`: `return reduceIterator(this, reducer,
initial);`, which dispatches to the asynchronous reducing node. -/
def AsyncIter.reduce {α τ V C R N : Type} (self : AsyncIter α τ V R N)
    (reducer : C → V → C) : AsyncIter α (τ × C) C R N :=
  AsyncAugmentedIterators.ReducingIterator self reducer

/-- `AugmentedAsyncIterator[Symbol.asyncIterator]`: `return this;`. -/
def AsyncIter.symbolAsyncIterator {α τ V R N : Type}
    (self : AsyncIter α τ V R N) : AsyncIter α τ V R N :=
  self

/-- Forget the (always-resolved) promise wrapper: the synchronous iterator
with the same transition function. -/
def AsyncIter.toIter {α τ V R N : Type} (self : AsyncIter α τ V R N) :
    Iter α τ V R N :=
  ⟨self.step, self.consumes⟩

/-- Wrap a synchronous iterator as an asynchronous one whose promises are
already resolved. -/
def Iter.toAsync {α τ V R N : Type} (self : Iter α τ V R N) :
    AsyncIter α τ V R N :=
  ⟨self.step, self.consumes⟩

/-- The capability shape of the `iterator` argument a public constructor
receives: a callable `Symbol.iterator` (synchronous pull-producer, whether
or not it is also asynchronous), only a callable `Symbol.asyncIterator`
(asynchronous-only), or neither capability. -/
inductive ProducerArg (S A : Type) : Type where
  | sync (producer : S)
  | asyncOnly (producer : A)
  | invalid

/-- `isIteratable`: `!!arg && typeof arg === 'object' && typeof
arg[Symbol.iterator] === 'function'`. -/
def isIteratable {S A : Type} : ProducerArg S A → Bool
  | .sync _ => true
  | .asyncOnly _ => false
  | .invalid => false

/-- The implementation signature of `reduceIterator`: if `isIteratable`,
construct the synchronous reducing node; else if `Symbol.asyncIterator in
iterator`, construct the asynchronous reducing node; else `throw new
Error('iterator parameter was neither an IterableIterator or an
AsyncIterableIterator!')`. -/
def reduceIteratorImpl {α τ V C R N : Type}
    (iterator : ProducerArg (Iter α τ V R N) (AsyncIter α τ V R N))
    (reducer : C → V → C) :
    Except JsError (Iter α (τ × C) C R N ⊕ AsyncIter α (τ × C) C R N) :=
  match iterator with
  | .sync p => .ok (.inl (reduceIterator p reducer))
  | .asyncOnly p => .ok (.inr (AsyncAugmentedIterators.ReducingIterator p reducer))
  | .invalid => .error (.error
      "iterator parameter was neither an IterableIterator or an AsyncIterableIterator!")

/-- `mapIterator` performs no capability check: it unconditionally constructs
`_MappingIterator`, whose constructor evaluates `iterable[Symbol.iterator]()`.
When the argument has no callable `Symbol.iterator` (asynchronous-only or
invalid) the JS runtime raises a `TypeError` from that call. -/
def mapIteratorImpl {α τ V W R N A : Type}
    (iterator : ProducerArg (Iter α τ V R N) A) (mapper : V → W) :
    Except JsError (Iter α τ W R N) :=
  match iterator with
  | .sync p => .ok (mapIterator p mapper)
  | .asyncOnly _ => .error (.typeError "iterator[Symbol.iterator] is not a function")
  | .invalid => .error (.typeError "iterator[Symbol.iterator] is not a function")

/-- `filterIterator` likewise performs no capability check; the
`_FilteringIterator` constructor evaluates `iterable[Symbol.iterator]()`. -/
def filterIteratorImpl {α τ V R N A : Type}
    (iterator : ProducerArg (Iter α τ V R N) A) (filterer : V → Bool) :
    Except JsError (Iter α τ V R N) :=
  match iterator with
  | .sync p => .ok (filterIterator p filterer)
  | .asyncOnly _ => .error (.typeError "iterator[Symbol.iterator] is not a function")
  | .invalid => .error (.typeError "iterator[Symbol.iterator] is not a function")

/-- `_MappingIterator.next` with effects visible: the upstream pull and the
mapper may throw.  The source contains no try/catch, so each `match` below
re-raises an exception exactly as received. -/
def mappingNextE {σ V W R N : Type}
    (upstream : σ → N → Except JsError (IterResult V R × σ))
    (mapper : V → Except JsError W) (s : σ) (n : N) :
    Except JsError (IterResult W R × σ) :=
  match upstream s n with
  | .error err => .error err
  | .ok (.yield v e, s') =>
      match mapper v with
      | .error err => .error err
      | .ok w => .ok (.yield w e, s')
  | .ok (.stop r e, s') => .ok (.stop r e, s')

/-- `_ReducingIterator.next` with effects visible: the upstream pull and the
reducer may throw. -/
def reducingNextE {σ V C R N : Type}
    (upstream : σ → N → Except JsError (IterResult V R × σ))
    (reducer : C → V → Except JsError C) (s : σ) (c : C) (n : N) :
    Except JsError (IterResult C R × σ × C) :=
  match upstream s n with
  | .error err => .error err
  | .ok (.yield v e, s') =>
      match reducer c v with
      | .error err => .error err
      | .ok c' => .ok (.yield c' e, s', c')
  | .ok (.stop r e, s') => .ok (.stop r e, s', c)

/-- `_FilteringIterator.next` with effects visible: the upstream pull and the
predicate may throw; `fuel` makes the skip loop total (`none` = fuel ran
out). -/
def filteringNextE {σ V R N : Type}
    (upstream : σ → N → Except JsError (IterResult V R × σ))
    (filterer : V → Except JsError Bool) :
    Nat → σ → N → Option (Except JsError (IterResult V R × σ))
  | 0, _, _ => none
  | fuel + 1, s, n =>
      match upstream s n with
      | .error err => some (.error err)
      | .ok (.stop r e, s') => some (.ok (.stop r e, s'))
      | .ok (.yield v e, s') =>
          match filterer v with
          | .error err => some (.error err)
          | .ok true => some (.ok (.yield v e, s'))
          | .ok false => filteringNextE upstream filterer fuel s' n

/-- A producer whose pull yields the cells of its state list in order and
then, once exhausted, throws `err` instead of completing. -/
def throwAfterNext {V N : Type} (err : JsError) :
    List V → N → Except JsError (IterResult V Unit × List V)
  | [], _ => .error err
  | v :: rest, _ => .ok (.yield v 0, rest)

/-- Draining a node whose pull may throw: collect the yielded values until
completion or an exception; an exception is reported alongside the prefix
already yielded (this is what `Array.from` observes). -/
def drainE {σ V R : Type} (next : σ → Except JsError (IterResult V R × σ)) :
    Nat → σ → List V × Option JsError
  | 0, _ => ([], none)
  | fuel + 1, s =>
      match next s with
      | .error err => ([], some err)
      | .ok (.yield v _, s') =>
          let rest := drainE next fuel s'
          (v :: rest.1, rest.2)
      | .ok (.stop _ _, _) => ([], none)

/-- `eagerlyReduceIterator` over a producer that may throw, the producer
denoted by the values it yields followed by `none` (completes) or
`some err` (its pull throws): the `for...of` loop folds until completion,
re-raising any exception raised by the pull or by the reducer. -/
def eagerlyReduceIteratorE {V C : Type} (reducer : C → V → Except JsError C) :
    C → List V → Option JsError → Except JsError C
  | c, [], none => .ok c
  | _, [], some err => .error err
  | c, v :: rest, eo =>
      match reducer c v with
      | .error err => .error err
      | .ok c' => eagerlyReduceIteratorE reducer c' rest eo

/-- Idempotent termination of a producer: once a pull has returned
`done=true`, every subsequent pull - whatever arguments the chain of
subsequent pulls passes - also returns `done=true`. -/
def Iter.doneStable {α τ V R N : Type} (u : Iter α τ V R N) : Prop :=
  ∀ l t n r e l' t', u.step l t n = (.stop r e, l', t') →
    ∀ args, ∀ x ∈ pulls u l' t' args, x.done = true

theorem mapIterator_step_yield {α τ V W R N : Type} (iterator : Iter α τ V R N)
    (mapper : V → W) {l : List α} {t : τ} {n : N} {v : V} {e : Nat}
    {l' : List α} {t' : τ} (h : iterator.step l t n = (.yield v e, l', t')) :
    (mapIterator iterator mapper).step l t n = (.yield (mapper v) e, l', t') := by
  simp [mapIterator, h]

theorem mapIterator_step_stop {α τ V W R N : Type} (iterator : Iter α τ V R N)
    (mapper : V → W) {l : List α} {t : τ} {n : N} {r : R} {e : Nat}
    {l' : List α} {t' : τ} (h : iterator.step l t n = (.stop r e, l', t')) :
    (mapIterator iterator mapper).step l t n = (.stop r e, l', t') := by
  simp [mapIterator, h]

theorem reduceIterator_step_yield {α τ V C R N : Type} (iterator : Iter α τ V R N)
    (reducer : C → V → C) {l : List α} {t : τ} {c : C} {n : N} {v : V} {e : Nat}
    {l' : List α} {t' : τ} (h : iterator.step l t n = (.yield v e, l', t')) :
    (reduceIterator iterator reducer).step l (t, c) n
      = (.yield (reducer c v) e, l', t', reducer c v) := by
  simp [reduceIterator, h]

theorem reduceIterator_step_stop {α τ V C R N : Type} (iterator : Iter α τ V R N)
    (reducer : C → V → C) {l : List α} {t : τ} {c : C} {n : N} {r : R} {e : Nat}
    {l' : List α} {t' : τ} (h : iterator.step l t n = (.stop r e, l', t')) :
    (reduceIterator iterator reducer).step l (t, c) n = (.stop r e, l', t', c) := by
  simp [reduceIterator, h]

theorem filterIterator_step {α τ V R N : Type} (iterator : Iter α τ V R N)
    (filterer : V → Bool) (l : List α) (t : τ) (n : N) :
    (filterIterator iterator filterer).step l t n
      = filterNext iterator filterer l t n :=
  rfl

theorem filterNext_stop {α τ V R N : Type} (iterator : Iter α τ V R N)
    (filterer : V → Bool) {l : List α} {t : τ} {n : N} {r : R} {e : Nat}
    {l' : List α} {t' : τ} (h : iterator.step l t n = (.stop r e, l', t')) :
    filterNext iterator filterer l t n = (.stop r e, l', t') := by
  rw [filterNext.eq_def]
  split
  next r2 e2 l2 t2 h2 =>
    rw [h] at h2
    injection h2 with hr hp
    injection hp with hl ht
    subst hl ht
    injection hr with hv he
    subst hv he
    rfl
  next v2 e2 l2 t2 h2 =>
    rw [h] at h2
    injection h2 with hr hp
    exact absurd hr (by simp)

theorem filterNext_pass {α τ V R N : Type} (iterator : Iter α τ V R N)
    (filterer : V → Bool) {l : List α} {t : τ} {n : N} {v : V} {e : Nat}
    {l' : List α} {t' : τ} (h : iterator.step l t n = (.yield v e, l', t'))
    (hf : filterer v = true) :
    filterNext iterator filterer l t n = (.yield v e, l', t') := by
  rw [filterNext.eq_def]
  split
  next r2 e2 l2 t2 h2 =>
    rw [h] at h2
    injection h2 with hr hp
    exact absurd hr (by simp)
  next v2 e2 l2 t2 h2 =>
    rw [h] at h2
    injection h2 with hr hp
    injection hp with hl ht
    subst hl ht
    injection hr with hv he
    subst hv he
    simp [hf]

theorem filterNext_fail {α τ V R N : Type} (iterator : Iter α τ V R N)
    (filterer : V → Bool) {l : List α} {t : τ} {n : N} {v : V} {e : Nat}
    {l' : List α} {t' : τ} (h : iterator.step l t n = (.yield v e, l', t'))
    (hf : filterer v = false) :
    filterNext iterator filterer l t n = filterNext iterator filterer l' t' n := by
  rw [filterNext.eq_def]
  split
  next r2 e2 l2 t2 h2 =>
    rw [h] at h2
    injection h2 with hr hp
    exact absurd hr (by simp)
  next v2 e2 l2 t2 h2 =>
    rw [h] at h2
    injection h2 with hr hp
    injection hp with hl ht
    subst hl ht
    injection hr with hv he
    subst hv he
    simp [hf]

theorem drainRun_yield {α τ V R N : Type} {it : Iter α τ V R N} {dflt : N}
    {l : List α} {t : τ} {v : V} {e : Nat} {l' : List α} {t' : τ}
    (h : it.step l t dflt = (.yield v e, l', t')) :
    drainRun it dflt l t
      = (v :: (drainRun it dflt l' t').1, (drainRun it dflt l' t').2) := by
  rw [drainRun.eq_def]
  split
  next v2 e2 l2 t2 h2 =>
    rw [h] at h2
    injection h2 with hr hp
    injection hp with hl ht
    subst hl ht
    injection hr with hv he
    subst hv he
    rfl
  next r2 e2 l2 t2 h2 =>
    rw [h] at h2
    injection h2 with hr hp
    exact absurd hr (by simp)

theorem drainRun_stop {α τ V R N : Type} {it : Iter α τ V R N} {dflt : N}
    {l : List α} {t : τ} {r : R} {e : Nat} {l' : List α} {t' : τ}
    (h : it.step l t dflt = (.stop r e, l', t')) :
    drainRun it dflt l t = ([], l', t') := by
  rw [drainRun.eq_def]
  split
  next v2 e2 l2 t2 h2 =>
    rw [h] at h2
    injection h2 with hr hp
    exact absurd hr (by simp)
  next r2 e2 l2 t2 h2 =>
    rw [h] at h2
    injection h2 with hr hp
    injection hp with hl ht
    subst hl ht
    rfl

theorem drainRun_list {α N : Type} (dflt : N) (l : List α) :
    drainRun (listIterator (N := N)) dflt l () = (l, [], ()) := by
  induction l with
  | nil => rw [drainRun_stop (r := ()) (e := 0) rfl]
  | cons v rest ih => rw [drainRun_yield (v := v) (e := 0) rfl, ih]

theorem drainRun_map {α τ V W R N : Type} (u : Iter α τ V R N) (mapper : V → W)
    (dflt : N) (l : List α) (t : τ) :
    drainRun (mapIterator u mapper) dflt l t
      = ((drainRun u dflt l t).1.map mapper, (drainRun u dflt l t).2) := by
  suffices hgen : ∀ (len : Nat) (l : List α) (t : τ), l.length ≤ len →
      drainRun (mapIterator u mapper) dflt l t
        = ((drainRun u dflt l t).1.map mapper, (drainRun u dflt l t).2) by
    exact hgen l.length l t le_rfl
  intro len
  induction len with
  | zero =>
    intro l t hle
    rcases hs : u.step l t dflt with ⟨r, l2, t2⟩
    cases r with
    | yield v e =>
      have hc := u.consumes l t dflt
      rw [hs] at hc
      have := hc rfl
      simp at this
      omega
    | stop r e =>
      rw [drainRun_stop (mapIterator_step_stop u mapper hs), drainRun_stop hs]
      simp
  | succ len ih =>
    intro l t hle
    rcases hs : u.step l t dflt with ⟨r, l2, t2⟩
    cases r with
    | yield v e =>
      have hlt : l2.length < l.length := by
        have hc := u.consumes l t dflt
        rw [hs] at hc
        simpa using hc rfl
      rw [drainRun_yield (mapIterator_step_yield u mapper hs), drainRun_yield hs,
        ih l2 t2 (by omega)]
      simp
    | stop r e =>
      rw [drainRun_stop (mapIterator_step_stop u mapper hs), drainRun_stop hs]
      simp

theorem drain_map {α τ V W R N : Type} (u : Iter α τ V R N) (mapper : V → W)
    (dflt : N) (l : List α) (t : τ) :
    drain (mapIterator u mapper) dflt l t = (drain u dflt l t).map mapper := by
  simp [drain, drainRun_map]

theorem drain_filter {α τ V R N : Type} (u : Iter α τ V R N) (filterer : V → Bool)
    (dflt : N) (l : List α) (t : τ) :
    drain (filterIterator u filterer) dflt l t
      = (drain u dflt l t).filter filterer := by
  suffices hgen : ∀ (len : Nat) (l : List α) (t : τ), l.length ≤ len →
      drain (filterIterator u filterer) dflt l t
        = (drain u dflt l t).filter filterer by
    exact hgen l.length l t le_rfl
  intro len
  induction len with
  | zero =>
    intro l t hle
    rcases hs : u.step l t dflt with ⟨r, l2, t2⟩
    cases r with
    | yield v e =>
      have hc := u.consumes l t dflt
      rw [hs] at hc
      have := hc rfl
      simp at this
      omega
    | stop r e =>
      have hnode : (filterIterator u filterer).step l t dflt = (.stop r e, l2, t2) := by
        rw [filterIterator_step, filterNext_stop u filterer hs]
      simp [drain, drainRun_stop hnode, drainRun_stop hs]
  | succ len ih =>
    intro l t hle
    rcases hs : u.step l t dflt with ⟨r, l2, t2⟩
    have hlt : (IterResult.done r) = false → l2.length < l.length := by
      intro hr
      have hc := u.consumes l t dflt
      rw [hs] at hc
      simpa [hr] using hc (by simp [hr])
    cases r with
    | yield v e =>
      have hl2 : l2.length < l.length := by
        apply hlt
        rfl
      by_cases hf : filterer v
      · have hnode : (filterIterator u filterer).step l t dflt = (.yield v e, l2, t2) := by
          rw [filterIterator_step, filterNext_pass u filterer hs hf]
        simp only [drain] at ih ⊢
        rw [drainRun_yield hnode, drainRun_yield hs]
        simp only [List.filter_cons, hf, ih l2 t2 (by omega)]
        simp
      · have hnode : (filterIterator u filterer).step l t dflt
            = filterNext u filterer l2 t2 dflt := by
          rw [filterIterator_step, filterNext_fail u filterer hs (by simpa using hf)]
        have hsame : drain (filterIterator u filterer) dflt l t
            = drain (filterIterator u filterer) dflt l2 t2 := by
          rcases hfn : filterNext u filterer l2 t2 dflt with ⟨r3, l3, t3⟩
          cases r3 with
          | yield v3 e3 =>
            have h1 : (filterIterator u filterer).step l t dflt = (.yield v3 e3, l3, t3) := by
              rw [hnode, hfn]
            have h2 : (filterIterator u filterer).step l2 t2 dflt = (.yield v3 e3, l3, t3) := by
              rw [filterIterator_step, hfn]
            simp [drain, drainRun_yield h1, drainRun_yield h2]
          | stop r3 e3 =>
            have h1 : (filterIterator u filterer).step l t dflt = (.stop r3 e3, l3, t3) := by
              rw [hnode, hfn]
            have h2 : (filterIterator u filterer).step l2 t2 dflt = (.stop r3 e3, l3, t3) := by
              rw [filterIterator_step, hfn]
            simp [drain, drainRun_stop h1, drainRun_stop h2]
        rw [hsame, ih l2 t2 (by omega)]
        simp only [drain, drainRun_yield hs]
        simp [List.filter_cons, hf]
    | stop r e =>
      have hnode : (filterIterator u filterer).step l t dflt = (.stop r e, l2, t2) := by
        rw [filterIterator_step, filterNext_stop u filterer hs]
      simp [drain, drainRun_stop hnode, drainRun_stop hs]

theorem drain_reduce {α τ V C R N : Type} (u : Iter α τ V R N) (reducer : C → V → C)
    (dflt : N) (l : List α) (t : τ) (c : C) :
    drain (reduceIterator u reducer) dflt l (t, c)
      = runningFold reducer c (drain u dflt l t) := by
  suffices hgen : ∀ (len : Nat) (l : List α) (t : τ) (c : C), l.length ≤ len →
      drain (reduceIterator u reducer) dflt l (t, c)
        = runningFold reducer c (drain u dflt l t) by
    exact hgen l.length l t c le_rfl
  intro len
  induction len with
  | zero =>
    intro l t c hle
    rcases hs : u.step l t dflt with ⟨r, l2, t2⟩
    cases r with
    | yield v e =>
      have hc := u.consumes l t dflt
      rw [hs] at hc
      have := hc rfl
      simp at this
      omega
    | stop r e =>
      simp [drain, drainRun_stop (reduceIterator_step_stop u reducer hs),
        drainRun_stop hs, runningFold]
  | succ len ih =>
    intro l t c hle
    rcases hs : u.step l t dflt with ⟨r, l2, t2⟩
    cases r with
    | yield v e =>
      have hlt : l2.length < l.length := by
        have hc := u.consumes l t dflt
        rw [hs] at hc
        simpa using hc rfl
      simp only [drain] at ih ⊢
      rw [drainRun_yield (reduceIterator_step_yield u reducer hs), drainRun_yield hs]
      simp only [runningFold]
      rw [ih l2 t2 (reducer c v) (by omega)]
    | stop r e =>
      simp [drain, drainRun_stop (reduceIterator_step_stop u reducer hs),
        drainRun_stop hs, runningFold]

theorem drain_list {α N : Type} (dflt : N) (l : List α) :
    drain (listIterator (N := N)) dflt l () = l := by
  simp [drain, drainRun_list]

theorem runningFold_length {V C : Type} (reducer : C → V → C) :
    ∀ (xs : List V) (c : C), (runningFold reducer c xs).length = xs.length := by
  intro xs
  induction xs with
  | nil => intro c; simp [runningFold]
  | cons v rest ih => intro c; simp [runningFold, ih]

theorem runningFold_getElem {V C : Type} (reducer : C → V → C) :
    ∀ (xs : List V) (c : C) (k : Nat), k < xs.length →
      (runningFold reducer c xs)[k]?
        = some (eagerlyReduceIterator (xs.take (k + 1)) reducer c) := by
  intro xs
  induction xs with
  | nil => intro c k hk; simp at hk
  | cons v rest ih =>
    intro c k hk
    cases k with
    | zero => simp [runningFold, eagerlyReduceIterator]
    | succ k =>
      simp only [runningFold, List.getElem?_cons_succ, List.take_succ_cons]
      rw [ih (reducer c v) k (by simpa using hk)]
      rfl

theorem runningFold_getLast {V C : Type} (reducer : C → V → C)
    (xs : List V) (c : C) (hne : xs ≠ []) :
    (runningFold reducer c xs).getLast?
      = some (eagerlyReduceIterator xs reducer c) := by
  have hlen : (runningFold reducer c xs).length = xs.length := runningFold_length reducer xs c
  have hpos : 0 < xs.length := List.length_pos.mpr hne
  rw [List.getLast?_eq_getElem?, hlen, runningFold_getElem reducer xs c (xs.length - 1) (by omega)]
  congr 1
  rw [show xs.length - 1 + 1 = xs.length by omega, List.take_length]

/-- C1.  For every finite producer `P` and mapper `f`, draining
`mapIterator(P, f)` yields exactly `f` mapped over the drain of `P`, in
order; a non-terminal pull returns the upstream result with only its value
replaced by `mapper(value)` (done flag and pass-through fields untouched);
a terminal upstream result is returned unchanged, without invoking the
mapper. -/
theorem mapIterator_drain_and_pointwise {α τ V W R N : Type}
    (u : Iter α τ V R N) (mapper : V → W) (dflt : N) :
    (∀ (l : List α) (t : τ),
      drain (mapIterator u mapper) dflt l t = (drain u dflt l t).map mapper)
    ∧ (∀ (l : List α) (t : τ) (n : N) (v : V) (e : Nat) (l' : List α) (t' : τ),
        u.step l t n = (.yield v e, l', t') →
        (mapIterator u mapper).step l t n = (.yield (mapper v) e, l', t'))
    ∧ (∀ (l : List α) (t : τ) (n : N) (r : R) (e : Nat) (l' : List α) (t' : τ),
        u.step l t n = (.stop r e, l', t') →
        (mapIterator u mapper).step l t n = (.stop r e, l', t')) := by
  refine ⟨fun l t => drain_map u mapper dflt l t, ?_, ?_⟩
  · intro l t n v e l' t' h
    exact mapIterator_step_yield u mapper h
  · intro l t n r e l' t' h
    exact mapIterator_step_stop u mapper h

theorem mapIterator_drain_and_pointwise_witness :
    ((listIterator (α := Nat) (N := Unit)).step [5, 6] () () = (.yield 5 0, [6], ())
      ∧ (mapIterator (listIterator (N := Unit)) (fun x => x * 2)).step [5, 6] () ()
          = (.yield 10 0, [6], ()))
    ∧ ((listIterator (α := Nat) (N := Unit)).step [] () () = (.stop () 0, [], ())
      ∧ (mapIterator (listIterator (N := Unit)) (fun x => x * 2)).step [] () ()
          = (.stop () 0, [], ()))
    ∧ drain (mapIterator (listIterator (N := Unit)) (fun x => x * 2)) () [1, 2, 3] ()
        = [2, 4, 6] := by
  obtain ⟨h1, h2, h3⟩ :=
    mapIterator_drain_and_pointwise (listIterator (N := Unit)) (fun x => x * 2) ()
  refine ⟨⟨rfl, h2 [5, 6] () () 5 0 [6] () rfl⟩,
    ⟨rfl, h3 [] () () () 0 [] () rfl⟩, ?_⟩
  rw [h1 [1, 2, 3] (), drain_list]
  decide

/-- C3.  Draining `reduceIterator(P, r, i)` yields the running fold of `r`
over the drain of `P` starting from `i`: the element at (0-based) index `k`
is `r` folded over the first `k + 1` elements; when `P` is non-empty the
last element equals `eagerlyReduceIterator(P, r, i)`; an empty `P` drains to
zero elements; a terminal upstream result is returned as-is, without
invoking the reducer and with the carry state unmodified. -/
theorem reduceIterator_runningFold {α τ V C R N : Type}
    (u : Iter α τ V R N) (reducer : C → V → C) (initial : C) (dflt : N) :
    (∀ (l : List α) (t : τ),
      drain (reduceIterator u reducer) dflt l (t, initial)
        = runningFold reducer initial (drain u dflt l t))
    ∧ (∀ (l : List α) (t : τ) (k : Nat), k < (drain u dflt l t).length →
        (drain (reduceIterator u reducer) dflt l (t, initial))[k]?
          = some (eagerlyReduceIterator ((drain u dflt l t).take (k + 1))
              reducer initial))
    ∧ (∀ (l : List α) (t : τ), drain u dflt l t ≠ [] →
        (drain (reduceIterator u reducer) dflt l (t, initial)).getLast?
          = some (eagerlyReduceIterator (drain u dflt l t) reducer initial))
    ∧ (∀ (l : List α) (t : τ), drain u dflt l t = [] →
        drain (reduceIterator u reducer) dflt l (t, initial) = [])
    ∧ (∀ (l : List α) (t : τ) (c : C) (n : N) (r : R) (e : Nat)
        (l' : List α) (t' : τ),
        u.step l t n = (.stop r e, l', t') →
        (reduceIterator u reducer).step l (t, c) n = (.stop r e, l', t', c)) := by
  refine ⟨fun l t => drain_reduce u reducer dflt l t initial, ?_, ?_, ?_, ?_⟩
  · intro l t k hk
    rw [drain_reduce u reducer dflt l t initial, runningFold_getElem reducer _ _ _ hk]
  · intro l t hne
    rw [drain_reduce u reducer dflt l t initial, runningFold_getLast reducer _ _ hne]
  · intro l t hnil
    rw [drain_reduce u reducer dflt l t initial, hnil]
    rfl
  · intro l t c n r e l' t' h
    exact reduceIterator_step_stop u reducer h

theorem reduceIterator_runningFold_witness :
    ((1 : Nat) < (drain (listIterator (α := Nat) (N := Unit)) () [1, 2, 3] ()).length
      ∧ (drain (reduceIterator (listIterator (N := Unit)) (fun c x => c + x)) ()
            [1, 2, 3] ((), 0))[1]?
          = some (eagerlyReduceIterator
              ((drain (listIterator (N := Unit)) () [1, 2, 3] ()).take 2)
              (fun c x => c + x) 0))
    ∧ (drain (listIterator (α := Nat) (N := Unit)) () [1, 2, 3] () ≠ []
      ∧ (drain (reduceIterator (listIterator (N := Unit)) (fun c x => c + x)) ()
            [1, 2, 3] ((), 0)).getLast?
          = some (eagerlyReduceIterator (drain (listIterator (N := Unit)) () [1, 2, 3] ())
              (fun c x => c + x) 0))
    ∧ (drain (listIterator (α := Nat) (N := Unit)) () [] () = []
      ∧ drain (reduceIterator (listIterator (N := Unit)) (fun c x => c + x)) () [] ((), 0) = [])
    ∧ ((listIterator (α := Nat) (N := Unit)).step [] () () = (.stop () 0, [], ())
      ∧ (reduceIterator (listIterator (N := Unit)) (fun c x => c + x)).step [] ((), 7) ()
          = (.stop () 0, [], (), 7)) := by
  obtain ⟨h1, h2, h3, h4, h5⟩ :=
    reduceIterator_runningFold (listIterator (N := Unit)) (fun c x => c + x) 0 ()
  have hk : (1 : Nat) < (drain (listIterator (α := Nat) (N := Unit)) () [1, 2, 3] ()).length := by
    rw [drain_list]; decide
  have hne : drain (listIterator (α := Nat) (N := Unit)) () [1, 2, 3] () ≠ [] := by
    rw [drain_list]; decide
  have hnil : drain (listIterator (α := Nat) (N := Unit)) () [] () = [] := by
    rw [drain_list]
  exact ⟨⟨hk, h2 [1, 2, 3] () 1 hk⟩, ⟨hne, h3 [1, 2, 3] () hne⟩,
    ⟨hnil, h4 [] () hnil⟩, rfl, h5 [] () 7 () () 0 [] () rfl⟩

theorem filterNextCount_stop {α τ V R N : Type} (iterator : Iter α τ V R N)
    (filterer : V → Bool) {l : List α} {t : τ} {n : N} {r : R} {e : Nat}
    {l' : List α} {t' : τ} (h : iterator.step l t n = (.stop r e, l', t')) :
    filterNextCount iterator filterer l t n = ((.stop r e, l', t'), 0) := by
  rw [filterNextCount.eq_def]
  split
  next r2 e2 l2 t2 h2 =>
    rw [h] at h2
    injection h2 with hr hp
    injection hp with hl ht
    subst hl ht
    injection hr with hv he
    subst hv he
    rfl
  next v2 e2 l2 t2 h2 =>
    rw [h] at h2
    injection h2 with hr hp
    exact absurd hr (by simp)

theorem filterNextCount_pass {α τ V R N : Type} (iterator : Iter α τ V R N)
    (filterer : V → Bool) {l : List α} {t : τ} {n : N} {v : V} {e : Nat}
    {l' : List α} {t' : τ} (h : iterator.step l t n = (.yield v e, l', t'))
    (hf : filterer v = true) :
    filterNextCount iterator filterer l t n = ((.yield v e, l', t'), 1) := by
  rw [filterNextCount.eq_def]
  split
  next r2 e2 l2 t2 h2 =>
    rw [h] at h2
    injection h2 with hr hp
    exact absurd hr (by simp)
  next v2 e2 l2 t2 h2 =>
    rw [h] at h2
    injection h2 with hr hp
    injection hp with hl ht
    subst hl ht
    injection hr with hv he
    subst hv he
    simp [hf]

theorem filterNextCount_fail {α τ V R N : Type} (iterator : Iter α τ V R N)
    (filterer : V → Bool) {l : List α} {t : τ} {n : N} {v : V} {e : Nat}
    {l' : List α} {t' : τ} (h : iterator.step l t n = (.yield v e, l', t'))
    (hf : filterer v = false) :
    filterNextCount iterator filterer l t n
      = ((filterNextCount iterator filterer l' t' n).1,
         (filterNextCount iterator filterer l' t' n).2 + 1) := by
  rw [filterNextCount.eq_def]
  split
  next r2 e2 l2 t2 h2 =>
    rw [h] at h2
    injection h2 with hr hp
    exact absurd hr (by simp)
  next v2 e2 l2 t2 h2 =>
    rw [h] at h2
    injection h2 with hr hp
    injection hp with hl ht
    subst hl ht
    injection hr with hv he
    subst hv he
    simp [hf]

theorem filterNextCount_fst {α τ V R N : Type} (iterator : Iter α τ V R N)
    (filterer : V → Bool) (n : N) (l : List α) (t : τ) :
    (filterNextCount iterator filterer l t n).1 = filterNext iterator filterer l t n := by
  suffices hgen : ∀ (len : Nat) (l : List α) (t : τ), l.length ≤ len →
      (filterNextCount iterator filterer l t n).1 = filterNext iterator filterer l t n by
    exact hgen l.length l t le_rfl
  intro len
  induction len with
  | zero =>
    intro l t hle
    rcases hs : iterator.step l t n with ⟨r, l2, t2⟩
    cases r with
    | yield v e =>
      have hc := iterator.consumes l t n
      rw [hs] at hc
      have := hc rfl
      simp at this
      omega
    | stop r e =>
      rw [filterNextCount_stop iterator filterer hs, filterNext_stop iterator filterer hs]
  | succ len ih =>
    intro l t hle
    rcases hs : iterator.step l t n with ⟨r, l2, t2⟩
    cases r with
    | yield v e =>
      have hlt : l2.length < l.length := by
        have hc := iterator.consumes l t n
        rw [hs] at hc
        simpa using hc rfl
      by_cases hf : filterer v
      · rw [filterNextCount_pass iterator filterer hs hf,
          filterNext_pass iterator filterer hs hf]
      · rw [filterNextCount_fail iterator filterer hs (by simpa using hf),
          filterNext_fail iterator filterer hs (by simpa using hf)]
        exact ih l2 t2 (by omega)
    | stop r e =>
      rw [filterNextCount_stop iterator filterer hs, filterNext_stop iterator filterer hs]

theorem first_pass_decomp {V : Type} (filterer : V → Bool) :
    ∀ xs : List V, (∀ v ∈ xs, filterer v = false) ∨
      ∃ pre v post, xs = pre ++ v :: post
        ∧ (∀ w ∈ pre, filterer w = false) ∧ filterer v = true := by
  intro xs
  induction xs with
  | nil => left; simp
  | cons v rest ih =>
    by_cases hv : filterer v
    · right
      exact ⟨[], v, rest, by simp, by simp, hv⟩
    · rcases ih with hall | ⟨pre, w, post, hxs, hpre, hw⟩
      · left
        intro x hx
        rcases List.mem_cons.mp hx with hx | hx
        · subst hx; simpa using hv
        · exact hall x hx
      · right
        refine ⟨v :: pre, w, post, by simp [hxs], ?_, hw⟩
        intro x hx
        rcases List.mem_cons.mp hx with hx | hx
        · subst hx; simpa using hv
        · exact hpre x hx

theorem filter_eq_nil_of_all_false {V : Type} (filterer : V → Bool) :
    ∀ xs : List V, (∀ v ∈ xs, filterer v = false) → xs.filter filterer = [] := by
  intro xs
  induction xs with
  | nil => intro _; rfl
  | cons v rest ih =>
    intro hall
    simp [List.filter_cons, hall v (by simp), ih (fun w hw => hall w (by simp [hw]))]

theorem filterNextCount_list_none {α N : Type} (filterer : α → Bool) (n : N) :
    ∀ xs : List α, (∀ v ∈ xs, filterer v = false) →
      filterNextCount (listIterator (N := N)) filterer xs () n
        = ((.stop () 0, [], ()), xs.length) := by
  intro xs
  induction xs with
  | nil => intro _; exact filterNextCount_stop _ _ rfl
  | cons v rest ih =>
    intro hall
    rw [filterNextCount_fail _ _ rfl (hall v (by simp)),
      ih (fun w hw => hall w (by simp [hw]))]
    simp

theorem filterNextCount_list_pass {α N : Type} (filterer : α → Bool) (n : N) :
    ∀ (pre : List α) (v : α) (post : List α), (∀ w ∈ pre, filterer w = false) →
      filterer v = true →
      filterNextCount (listIterator (N := N)) filterer (pre ++ v :: post) () n
        = ((.yield v 0, post, ()), pre.length + 1) := by
  intro pre
  induction pre with
  | nil =>
    intro v post _ hv
    rw [List.nil_append]
    have hstep : (listIterator (N := N)).step (v :: post) () n = (.yield v 0, post, ()) := rfl
    simpa using filterNextCount_pass (listIterator (N := N)) filterer hstep hv
  | cons w pre ih =>
    intro v post hall hv
    rw [List.cons_append, filterNextCount_fail _ _ rfl (hall w (by simp)),
      ih v post (fun x hx => hall x (by simp [hx])) hv]
    simp

theorem filterDrainCount_list {α N : Type} (filterer : α → Bool) (dflt : N) :
    ∀ (xs : List α) (fuel : Nat), xs.length < fuel →
      filterDrainCount (listIterator (N := N)) filterer dflt fuel xs ()
        = (xs.filter filterer, xs.length) := by
  suffices hgen : ∀ (len : Nat) (xs : List α), xs.length ≤ len →
      ∀ fuel, xs.length < fuel →
      filterDrainCount (listIterator (N := N)) filterer dflt fuel xs ()
        = (xs.filter filterer, xs.length) by
    exact fun xs fuel h => hgen xs.length xs le_rfl fuel h
  intro len
  induction len with
  | zero =>
    intro xs hle fuel hlt
    have hxs : xs = [] := List.length_eq_zero.mp (Nat.le_zero.mp hle)
    subst hxs
    obtain ⟨f, rfl⟩ : ∃ f, fuel = f + 1 := ⟨fuel - 1, by omega⟩
    simp only [filterDrainCount]
    rw [filterNextCount_stop _ _ rfl]
    rfl
  | succ len ih =>
    intro xs hle fuel hlt
    obtain ⟨f, rfl⟩ : ∃ f, fuel = f + 1 := ⟨fuel - 1, by omega⟩
    rcases first_pass_decomp filterer xs with hall | ⟨pre, v, post, hxs, hpre, hv⟩
    · simp only [filterDrainCount]
      rw [filterNextCount_list_none filterer dflt xs hall]
      simp [filter_eq_nil_of_all_false filterer xs hall]
    · subst hxs
      simp only [filterDrainCount]
      rw [filterNextCount_list_pass filterer dflt pre v post hpre hv]
      have hpost : post.length ≤ len := by
        simp [List.length_append] at hle
        omega
      have hpostf : post.length < f := by
        simp [List.length_append] at hlt
        omega
      simp only [ih post hpost f hpostf]
      simp [List.filter_append, List.filter_cons, hv,
        filter_eq_nil_of_all_false filterer pre hpre, List.length_append]
      omega

theorem filterNextCount_consumed {α N : Type} (filterer : α → Bool) (n : N)
    (xs : List α) :
    (filterNextCount (listIterator (N := N)) filterer xs () n).2
      = xs.length
        - (((filterNextCount (listIterator (N := N)) filterer xs () n).1).2.1).length := by
  rcases first_pass_decomp filterer xs with hall | ⟨pre, v, post, hxs, hpre, hv⟩
  · rw [filterNextCount_list_none filterer n xs hall]
    simp
  · subst hxs
    rw [filterNextCount_list_pass filterer n pre v post hpre hv]
    simp [List.length_append]
    omega

/-- C2.  Draining `filterIterator(P, g)` yields exactly the order-preserving
subsequence of `P`'s elements satisfying `g`; the instrumented loop
(`filterNextCount`, whose first component coincides with the real node pull)
invokes the predicate exactly once per upstream element examined - on a
producer over `xs` a single pull examines precisely the cells it consumes,
and a full drain invokes the predicate exactly `xs.length` times. -/
theorem filterIterator_drain_and_count {α τ V R N : Type}
    (u : Iter α τ V R N) (filterer : V → Bool) (dflt : N) :
    (∀ (l : List α) (t : τ),
      drain (filterIterator u filterer) dflt l t
        = (drain u dflt l t).filter filterer)
    ∧ (∀ (l : List α) (t : τ) (n : N),
        (filterNextCount u filterer l t n).1 = filterNext u filterer l t n)
    ∧ (∀ (xs : List V) (n : N),
        (filterNextCount (listIterator (N := N)) filterer xs () n).2
          = xs.length
            - (((filterNextCount (listIterator (N := N)) filterer xs () n).1).2.1).length)
    ∧ (∀ (xs : List V) (fuel : Nat), xs.length < fuel →
        filterDrainCount (listIterator (N := N)) filterer dflt fuel xs ()
          = (xs.filter filterer, xs.length)) := by
  exact ⟨fun l t => drain_filter u filterer dflt l t,
    fun l t n => filterNextCount_fst u filterer n l t,
    fun xs n => filterNextCount_consumed filterer n xs,
    fun xs fuel h => filterDrainCount_list filterer dflt xs fuel h⟩

theorem filterIterator_drain_and_count_witness :
    ((5 : Nat) < 6
      ∧ filterDrainCount (listIterator (N := Unit)) (fun x => x % 2 == 0) () 6
          [1, 2, 3, 4, 5] ()
          = ([1, 2, 3, 4, 5].filter (fun x => x % 2 == 0), 5))
    ∧ (filterNextCount (listIterator (N := Unit)) (fun x : Nat => x % 2 == 0)
          [1, 2] () ()).1
        = filterNext (listIterator (N := Unit)) (fun x : Nat => x % 2 == 0) [1, 2] () () := by
  obtain ⟨h1, h2, h3, h4⟩ :=
    filterIterator_drain_and_count (listIterator (α := Nat) (N := Unit))
      (fun x => x % 2 == 0) ()
  exact ⟨⟨by decide, h4 [1, 2, 3, 4, 5] 6 (by decide)⟩, h2 [1, 2] () ()⟩

/-- C4.  When the caller supplies `nextArg` to a filtering node's pull, the
skip loop repeats the upstream pull passing that same `nextArg` for every
discarded candidate until a value passes or the upstream completes: on a
probe producer recording its received arguments, one node pull extends the
log by `k ≥ 1` copies of `nextArg` and nothing else - the caller gets no
opportunity to supply a fresh value per discarded item. -/
theorem filterIterator_reuses_nextArg {α N : Type} (filterer : α → Bool) :
    ∀ (l : List α) (log : List N) (n : N),
      ∃ k, 1 ≤ k
        ∧ ((filterIterator (argLogIterator (α := α) (N := N)) filterer).step l log n).2.2
            = log ++ List.replicate k n := by
  intro l
  induction l with
  | nil =>
    intro log n
    refine ⟨1, le_rfl, ?_⟩
    have hstep : (argLogIterator (α := α) (N := N)).step [] log n
        = (.stop () 0, [], log ++ [n]) := rfl
    rw [filterIterator_step, filterNext_stop _ _ hstep]
    simp
  | cons v rest ih =>
    intro log n
    have hstep : (argLogIterator (α := α) (N := N)).step (v :: rest) log n
        = (.yield v 0, rest, log ++ [n]) := rfl
    by_cases hf : filterer v
    · refine ⟨1, le_rfl, ?_⟩
      rw [filterIterator_step, filterNext_pass _ _ hstep hf]
      simp
    · obtain ⟨k, hk1, hk⟩ := ih (log ++ [n]) n
      refine ⟨k + 1, by omega, ?_⟩
      rw [filterIterator_step, filterNext_fail _ _ hstep (by simpa using hf)]
      rw [filterIterator_step] at hk
      rw [hk, List.append_assoc]
      congr 1

/-- C6.  Chaining laws: for every finite producer, chaining any two of
`.map`/`.filter`/`.reduce` on a node and draining equals draining the
producer and applying the corresponding list operations in the same order
(mapping, filtering, or taking the running fold), for all nine pairwise
combinations; in particular a producer yielding `[1,2,3,4,5]` gives
`filterIterator(P, even).map(double)` draining to `[4, 8]`. -/
theorem chaining_laws {α τ V W X C C2 R N : Type}
    (u : Iter α τ V R N) (dflt : N) :
    (∀ (mapper : V → W) (mapper2 : W → X) (l : List α) (t : τ),
      drain ((u.map mapper).map mapper2) dflt l t
        = ((drain u dflt l t).map mapper).map mapper2)
    ∧ (∀ (mapper : V → W) (filterer : W → Bool) (l : List α) (t : τ),
      drain ((u.map mapper).filter filterer) dflt l t
        = ((drain u dflt l t).map mapper).filter filterer)
    ∧ (∀ (mapper : V → W) (reducer : C → W → C) (initial : C) (l : List α) (t : τ),
      drain ((u.map mapper).reduce reducer) dflt l (t, initial)
        = runningFold reducer initial ((drain u dflt l t).map mapper))
    ∧ (∀ (filterer : V → Bool) (mapper : V → W) (l : List α) (t : τ),
      drain ((u.filter filterer).map mapper) dflt l t
        = ((drain u dflt l t).filter filterer).map mapper)
    ∧ (∀ (filterer filterer2 : V → Bool) (l : List α) (t : τ),
      drain ((u.filter filterer).filter filterer2) dflt l t
        = ((drain u dflt l t).filter filterer).filter filterer2)
    ∧ (∀ (filterer : V → Bool) (reducer : C → V → C) (initial : C) (l : List α) (t : τ),
      drain ((u.filter filterer).reduce reducer) dflt l (t, initial)
        = runningFold reducer initial ((drain u dflt l t).filter filterer))
    ∧ (∀ (reducer : C → V → C) (initial : C) (mapper : C → W) (l : List α) (t : τ),
      drain ((u.reduce reducer).map mapper) dflt l ((t, initial))
        = (runningFold reducer initial (drain u dflt l t)).map mapper)
    ∧ (∀ (reducer : C → V → C) (initial : C) (filterer : C → Bool) (l : List α) (t : τ),
      drain ((u.reduce reducer).filter filterer) dflt l ((t, initial))
        = (runningFold reducer initial (drain u dflt l t)).filter filterer)
    ∧ (∀ (reducer : C → V → C) (initial : C) (reducer2 : C2 → C → C2) (initial2 : C2)
        (l : List α) (t : τ),
      drain ((u.reduce reducer).reduce reducer2) dflt l ((t, initial), initial2)
        = runningFold reducer2 initial2
            (runningFold reducer initial (drain u dflt l t)))
    ∧ drain ((Iter.filter (listIterator (N := Unit)) (fun x => x % 2 == 0)).map
          (fun x => x * 2)) () [1, 2, 3, 4, 5] ()
        = [4, 8] := by
  refine ⟨?_, ?_, ?_, ?_, ?_, ?_, ?_, ?_, ?_, ?_⟩
  · intro mapper mapper2 l t
    simp only [Iter.map]
    rw [drain_map (mapIterator u mapper) mapper2 dflt l t, drain_map u mapper dflt l t]
  · intro mapper filterer l t
    simp only [Iter.map, Iter.filter]
    rw [drain_filter (mapIterator u mapper) filterer dflt l t, drain_map u mapper dflt l t]
  · intro mapper reducer initial l t
    simp only [Iter.map, Iter.reduce]
    rw [drain_reduce (mapIterator u mapper) reducer dflt l t initial,
      drain_map u mapper dflt l t]
  · intro filterer mapper l t
    simp only [Iter.map, Iter.filter]
    rw [drain_map (filterIterator u filterer) mapper dflt l t,
      drain_filter u filterer dflt l t]
  · intro filterer filterer2 l t
    simp only [Iter.filter]
    rw [drain_filter (filterIterator u filterer) filterer2 dflt l t,
      drain_filter u filterer dflt l t]
  · intro filterer reducer initial l t
    simp only [Iter.filter, Iter.reduce]
    rw [drain_reduce (filterIterator u filterer) reducer dflt l t initial,
      drain_filter u filterer dflt l t]
  · intro reducer initial mapper l t
    simp only [Iter.map, Iter.reduce]
    rw [drain_map (reduceIterator u reducer) mapper dflt l (t, initial),
      drain_reduce u reducer dflt l t initial]
  · intro reducer initial filterer l t
    simp only [Iter.filter, Iter.reduce]
    rw [drain_filter (reduceIterator u reducer) filterer dflt l (t, initial),
      drain_reduce u reducer dflt l t initial]
  · intro reducer initial reducer2 initial2 l t
    simp only [Iter.reduce]
    rw [drain_reduce (reduceIterator u reducer) reducer2 dflt l (t, initial) initial2,
      drain_reduce u reducer dflt l t initial]
  · simp only [Iter.map, Iter.filter]
    rw [drain_map (filterIterator (listIterator (N := Unit)) (fun x => x % 2 == 0))
        (fun x => x * 2) () [1, 2, 3, 4, 5] (),
      drain_filter (listIterator (N := Unit)) (fun x => x % 2 == 0) () [1, 2, 3, 4, 5] (),
      drain_list]
    decide

theorem pulls_nil {α τ V R N : Type} (it : Iter α τ V R N) (l : List α) (t : τ) :
    pulls it l t [] = [] :=
  rfl

theorem pulls_cons {α τ V R N : Type} (it : Iter α τ V R N) (l : List α) (t : τ)
    (n : N) (args : List N) :
    pulls it l t (n :: args)
      = (it.step l t n).1
          :: pulls it (it.step l t n).2.1 (it.step l t n).2.2 args :=
  rfl

theorem mapIterator_step_stop_inv {α τ V W R N : Type} (u : Iter α τ V R N)
    (mapper : V → W) {l : List α} {t : τ} {n : N} {r : R} {e : Nat}
    {l' : List α} {t' : τ}
    (h : (mapIterator u mapper).step l t n = (.stop r e, l', t')) :
    u.step l t n = (.stop r e, l', t') := by
  rcases hs : u.step l t n with ⟨r0, l0, t0⟩
  cases r0 with
  | yield v e0 =>
    rw [mapIterator_step_yield u mapper hs] at h
    injection h with hr hp
    exact absurd hr (by simp)
  | stop r0 e0 =>
    rw [mapIterator_step_stop u mapper hs] at h
    injection h with hr hp
    injection hr with hv he
    injection hp with hl ht
    subst hv he hl ht
    rfl

theorem reduceIterator_step_stop_inv {α τ V C R N : Type} (u : Iter α τ V R N)
    (reducer : C → V → C) {l : List α} {t : τ} {c : C} {n : N} {r : R} {e : Nat}
    {l' : List α} {tc' : τ × C}
    (h : (reduceIterator u reducer).step l (t, c) n = (.stop r e, l', tc')) :
    u.step l t n = (.stop r e, l', tc'.1) ∧ tc'.2 = c := by
  rcases hs : u.step l t n with ⟨r0, l0, t0⟩
  cases r0 with
  | yield v e0 =>
    rw [reduceIterator_step_yield u reducer hs] at h
    injection h with hr hp
    exact absurd hr (by simp)
  | stop r0 e0 =>
    rw [reduceIterator_step_stop u reducer hs] at h
    injection h with hr hp
    injection hp with hl ht
    injection hr with hv he
    subst hl ht hv he
    exact ⟨rfl, rfl⟩

theorem filterNext_stop_inv {α τ V R N : Type} (u : Iter α τ V R N)
    (filterer : V → Bool) {n : N} :
    ∀ (l : List α) (t : τ) {r : R} {e : Nat} {l' : List α} {t' : τ},
      filterNext u filterer l t n = (.stop r e, l', t') →
      ∃ l0 t0, u.step l0 t0 n = (.stop r e, l', t') := by
  suffices hgen : ∀ (len : Nat) (l : List α) (t : τ), l.length ≤ len →
      ∀ {r : R} {e : Nat} {l' : List α} {t' : τ},
        filterNext u filterer l t n = (.stop r e, l', t') →
        ∃ l0 t0, u.step l0 t0 n = (.stop r e, l', t') by
    exact fun l t => hgen l.length l t le_rfl
  intro len
  induction len with
  | zero =>
    intro l t hle r e l' t' h
    rcases hs : u.step l t n with ⟨r0, l0, t0⟩
    cases r0 with
    | yield v e0 =>
      have hc := u.consumes l t n
      rw [hs] at hc
      have := hc rfl
      simp at this
      omega
    | stop r0 e0 =>
      rw [filterNext_stop u filterer hs] at h
      exact ⟨l, t, by rw [hs, h]⟩
  | succ len ih =>
    intro l t hle r e l' t' h
    rcases hs : u.step l t n with ⟨r0, l0, t0⟩
    cases r0 with
    | yield v e0 =>
      have hlt : l0.length < l.length := by
        have hc := u.consumes l t n
        rw [hs] at hc
        simpa using hc rfl
      by_cases hf : filterer v
      · rw [filterNext_pass u filterer hs hf] at h
        injection h with hr hp
        exact absurd hr (by simp)
      · rw [filterNext_fail u filterer hs (by simpa using hf)] at h
        exact ih l0 t0 (by omega) h
    | stop r0 e0 =>
      rw [filterNext_stop u filterer hs] at h
      exact ⟨l, t, by rw [hs, h]⟩

theorem pulls_map_done {α τ V W R N : Type} (u : Iter α τ V R N) (mapper : V → W) :
    ∀ (args : List N) (l : List α) (t : τ),
      List.map IterResult.done (pulls (mapIterator u mapper) l t args)
        = List.map IterResult.done (pulls u l t args) := by
  intro args
  induction args with
  | nil => intro l t; rfl
  | cons n rest ih =>
    intro l t
    rcases hs : u.step l t n with ⟨r0, l0, t0⟩
    cases r0 with
    | yield v e0 =>
      rw [pulls_cons, pulls_cons, mapIterator_step_yield u mapper hs, hs]
      simp only [List.map_cons, ih l0 t0]
      rfl
    | stop r0 e0 =>
      rw [pulls_cons, pulls_cons, mapIterator_step_stop u mapper hs, hs]
      simp only [List.map_cons, ih l0 t0]
      rfl

theorem pulls_reduce_done {α τ V C R N : Type} (u : Iter α τ V R N)
    (reducer : C → V → C) :
    ∀ (args : List N) (l : List α) (t : τ) (c : C),
      List.map IterResult.done (pulls (reduceIterator u reducer) l (t, c) args)
        = List.map IterResult.done (pulls u l t args) := by
  intro args
  induction args with
  | nil => intro l t c; rfl
  | cons n rest ih =>
    intro l t c
    rcases hs : u.step l t n with ⟨r0, l0, t0⟩
    cases r0 with
    | yield v e0 =>
      rw [pulls_cons, pulls_cons, reduceIterator_step_yield u reducer hs, hs]
      simp only [List.map_cons, ih l0 t0 (reducer c v)]
      rfl
    | stop r0 e0 =>
      rw [pulls_cons, pulls_cons, reduceIterator_step_stop u reducer hs, hs]
      simp only [List.map_cons, ih l0 t0 c]
      rfl

theorem pulls_filter_of_allDone {α τ V R N : Type} (u : Iter α τ V R N)
    (filterer : V → Bool) :
    ∀ (args : List N) (l : List α) (t : τ),
      (∀ (args' : List N), ∀ x ∈ pulls u l t args', x.done = true) →
      pulls (filterIterator u filterer) l t args = pulls u l t args := by
  intro args
  induction args with
  | nil => intro l t _; rfl
  | cons n rest ih =>
    intro l t hall
    rcases hs : u.step l t n with ⟨r0, l0, t0⟩
    have hdone : r0.done = true := by
      apply hall [n] r0
      rw [pulls_cons, hs]
      simp
    cases r0 with
    | yield v e0 => simp [IterResult.done] at hdone
    | stop r0 e0 =>
      have hnode : (filterIterator u filterer).step l t n = (.stop r0 e0, l0, t0) := by
        rw [filterIterator_step, filterNext_stop u filterer hs]
      rw [pulls_cons, pulls_cons, hnode, hs]
      have hall' : ∀ (args' : List N), ∀ x ∈ pulls u l0 t0 args', x.done = true := by
        intro args' x hx
        apply hall (n :: args')
        rw [pulls_cons, hs]
        simp [hx]
      rw [ih l0 t0 hall']

theorem mapIterator_doneStable {α τ V W R N : Type} (u : Iter α τ V R N)
    (mapper : V → W) (hu : u.doneStable) : (mapIterator u mapper).doneStable := by
  intro l t n r e l' t' hstop args x hx
  have hups := mapIterator_step_stop_inv u mapper hstop
  have hall := hu l t n r e l' t' hups
  have hmem : x.done ∈ List.map IterResult.done (pulls u l' t' args) := by
    rw [← pulls_map_done u mapper args l' t']
    exact List.mem_map_of_mem _ hx
  obtain ⟨y, hy, hxy⟩ := List.mem_map.mp hmem
  rw [← hxy]
  exact hall args y hy

theorem reduceIterator_doneStable {α τ V C R N : Type} (u : Iter α τ V R N)
    (reducer : C → V → C) (hu : u.doneStable) :
    (reduceIterator u reducer).doneStable := by
  intro l tc n r e l' tc' hstop args x hx
  obtain ⟨hups, hcarry⟩ := reduceIterator_step_stop_inv u reducer (c := tc.2) hstop
  have hall := hu l tc.1 n r e l' tc'.1 hups
  have hmem : x.done ∈ List.map IterResult.done (pulls u l' tc'.1 args) := by
    rw [← pulls_reduce_done u reducer args l' tc'.1 tc'.2]
    exact List.mem_map_of_mem _ hx
  obtain ⟨y, hy, hxy⟩ := List.mem_map.mp hmem
  rw [← hxy]
  exact hall args y hy

theorem filterIterator_doneStable {α τ V R N : Type} (u : Iter α τ V R N)
    (filterer : V → Bool) (hu : u.doneStable) :
    (filterIterator u filterer).doneStable := by
  intro l t n r e l' t' hstop args x hx
  rw [filterIterator_step] at hstop
  obtain ⟨l0, t0, hups⟩ := filterNext_stop_inv u filterer l t hstop
  have hall := hu l0 t0 n r e l' t' hups
  have heq := pulls_filter_of_allDone u filterer args l' t'
    (fun args' y hy => hall args' y hy)
  rw [heq] at hx
  exact hall args x hx

theorem pulls_list_nil_done {α N : Type} :
    ∀ (args : List N) (x : IterResult α Unit),
      x ∈ pulls (listIterator (N := N)) [] () args → x.done = true := by
  intro args
  induction args with
  | nil =>
    intro x hx
    rw [pulls_nil] at hx
    simp at hx
  | cons n rest ih =>
    intro x hx
    rw [pulls_cons] at hx
    rcases List.mem_cons.mp hx with hx | hx
    · subst hx
      rfl
    · exact ih x hx

theorem listIterator_doneStable {α N : Type} :
    (listIterator (α := α) (N := N)).doneStable := by
  intro l t n r e l' t' hstop args x hx
  cases l with
  | cons v rest =>
    have : (listIterator (α := α) (N := N)).step (v :: rest) t n
        = (.yield v 0, rest, ()) := rfl
    rw [this] at hstop
    injection hstop with hr hp
    exact absurd hr (by simp)
  | nil =>
    have : (listIterator (α := α) (N := N)).step [] t n
        = (.stop () 0, [], ()) := rfl
    rw [this] at hstop
    injection hstop with hr hp
    injection hp with hl ht
    subst hl
    subst ht
    exact pulls_list_nil_done args x hx

/-- C5.  Idempotent termination: whenever the upstream producer terminates
idempotently (once a pull has returned `done=true`, all subsequent pulls do
too - `Iter.doneStable`), every node built by `mapIterator`, `filterIterator`
or `reduceIterator` over it terminates idempotently as well. -/
theorem nodes_idempotent_termination {α τ V W C R N : Type}
    (u : Iter α τ V R N) (mapper : V → W) (filterer : V → Bool)
    (reducer : C → V → C) (hu : u.doneStable) :
    (mapIterator u mapper).doneStable
    ∧ (filterIterator u filterer).doneStable
    ∧ (reduceIterator u reducer).doneStable :=
  ⟨mapIterator_doneStable u mapper hu, filterIterator_doneStable u filterer hu,
    reduceIterator_doneStable u reducer hu⟩

theorem nodes_idempotent_termination_witness :
    (listIterator (α := Nat) (N := Unit)).doneStable
    ∧ ((mapIterator (listIterator (α := Nat) (N := Unit)) (fun x => x * 2)).doneStable
      ∧ (filterIterator (listIterator (α := Nat) (N := Unit)) (fun x => x % 2 == 0)).doneStable
      ∧ (reduceIterator (listIterator (α := Nat) (N := Unit)) (fun c x => c + x)).doneStable) :=
  ⟨listIterator_doneStable,
    nodes_idempotent_termination (listIterator (α := Nat) (N := Unit))
      (fun x => x * 2) (fun x => x % 2 == 0) (fun c x => c + x)
      listIterator_doneStable⟩

theorem drain_nil_of_done {α τ V R N : Type} (it : Iter α τ V R N) (dflt : N)
    (l : List α) (t : τ) (h : ((it.step l t dflt).1).done = true) :
    drain it dflt l t = [] := by
  rcases hs : it.step l t dflt with ⟨r, l2, t2⟩
  cases r with
  | yield v e =>
    rw [hs] at h
    simp [IterResult.done] at h
  | stop r e =>
    simp [drain, drainRun_stop hs]

theorem drainRun_post_stop {α τ V R N : Type} (it : Iter α τ V R N) (dflt : N) :
    ∀ (l : List α) (t : τ), ∃ l0 t0 r e,
      it.step l0 t0 dflt
        = (.stop r e, (drainRun it dflt l t).2.1, (drainRun it dflt l t).2.2) := by
  suffices hgen : ∀ (len : Nat) (l : List α) (t : τ), l.length ≤ len →
      ∃ l0 t0 r e, it.step l0 t0 dflt
        = (.stop r e, (drainRun it dflt l t).2.1, (drainRun it dflt l t).2.2) by
    exact fun l t => hgen l.length l t le_rfl
  intro len
  induction len with
  | zero =>
    intro l t hle
    rcases hs : it.step l t dflt with ⟨r, l2, t2⟩
    cases r with
    | yield v e =>
      have hc := it.consumes l t dflt
      rw [hs] at hc
      have := hc rfl
      simp at this
      omega
    | stop r e =>
      exact ⟨l, t, r, e, by rw [drainRun_stop hs, hs]⟩
  | succ len ih =>
    intro l t hle
    rcases hs : it.step l t dflt with ⟨r, l2, t2⟩
    cases r with
    | yield v e =>
      have hlt : l2.length < l.length := by
        have hc := it.consumes l t dflt
        rw [hs] at hc
        simpa using hc rfl
      rw [drainRun_yield hs]
      exact ih l2 t2 (by omega)
    | stop r e =>
      exact ⟨l, t, r, e, by rw [drainRun_stop hs, hs]⟩

theorem drain_after_drain {α τ V R N : Type} (it : Iter α τ V R N) (dflt : N)
    (hds : it.doneStable) (l : List α) (t : τ) :
    drain it dflt (drainRun it dflt l t).2.1 (drainRun it dflt l t).2.2 = [] := by
  obtain ⟨l0, t0, r, e, hups⟩ := drainRun_post_stop it dflt l t
  apply drain_nil_of_done
  have hall := hds l0 t0 dflt r e _ _ hups [dflt]
  apply hall
  rw [pulls_cons]
  simp

/-- C10.  Every node is self-iterable: the `Symbol.iterator`
(`Symbol.asyncIterator` for asynchronous nodes) method returns the node
itself, so iteration protocols drain the node in place; consequently, once a
node over an idempotently-terminating upstream has been fully drained, a
second drain (from the state the first drain left behind) yields nothing. -/
theorem nodes_self_iterable_and_exhausted {α τ V W C R N : Type}
    (u : Iter α τ V R N) (mapper : V → W) (filterer : V → Bool)
    (reducer : C → V → C) (dflt : N) (hu : u.doneStable) :
    (∀ (w : Iter α τ V R N), Iter.symbolIterator w = w)
    ∧ (∀ (w : AsyncIter α τ V R N), AsyncIter.symbolAsyncIterator w = w)
    ∧ (∀ (l : List α) (t : τ),
        drain (mapIterator u mapper) dflt
          (drainRun (mapIterator u mapper) dflt l t).2.1
          (drainRun (mapIterator u mapper) dflt l t).2.2 = [])
    ∧ (∀ (l : List α) (t : τ),
        drain (filterIterator u filterer) dflt
          (drainRun (filterIterator u filterer) dflt l t).2.1
          (drainRun (filterIterator u filterer) dflt l t).2.2 = [])
    ∧ (∀ (l : List α) (tc : τ × C),
        drain (reduceIterator u reducer) dflt
          (drainRun (reduceIterator u reducer) dflt l tc).2.1
          (drainRun (reduceIterator u reducer) dflt l tc).2.2 = []) := by
  refine ⟨fun w => rfl, fun w => rfl, ?_, ?_, ?_⟩
  · exact fun l t => drain_after_drain _ dflt (mapIterator_doneStable u mapper hu) l t
  · exact fun l t => drain_after_drain _ dflt (filterIterator_doneStable u filterer hu) l t
  · exact fun l tc => drain_after_drain _ dflt (reduceIterator_doneStable u reducer hu) l tc

theorem nodes_self_iterable_and_exhausted_witness :
    (listIterator (α := Nat) (N := Unit)).doneStable
    ∧ ((∀ (w : Iter Nat Unit Nat Unit Unit), Iter.symbolIterator w = w)
      ∧ (∀ (w : AsyncIter Nat Unit Nat Unit Unit), AsyncIter.symbolAsyncIterator w = w)
      ∧ (∀ (l : List Nat) (t : Unit),
          drain (mapIterator (listIterator (N := Unit)) (fun x => x * 2)) ()
            (drainRun (mapIterator (listIterator (N := Unit)) (fun x => x * 2)) () l t).2.1
            (drainRun (mapIterator (listIterator (N := Unit)) (fun x => x * 2)) () l t).2.2
            = [])
      ∧ (∀ (l : List Nat) (t : Unit),
          drain (filterIterator (listIterator (N := Unit)) (fun x => x % 2 == 0)) ()
            (drainRun (filterIterator (listIterator (N := Unit)) (fun x => x % 2 == 0)) () l t).2.1
            (drainRun (filterIterator (listIterator (N := Unit)) (fun x => x % 2 == 0)) () l t).2.2
            = [])
      ∧ (∀ (l : List Nat) (tc : Unit × Nat),
          drain (reduceIterator (listIterator (N := Unit)) (fun c x => c + x)) ()
            (drainRun (reduceIterator (listIterator (N := Unit)) (fun c x => c + x)) () l tc).2.1
            (drainRun (reduceIterator (listIterator (N := Unit)) (fun c x => c + x)) () l tc).2.2
            = [])) :=
  ⟨listIterator_doneStable,
    nodes_self_iterable_and_exhausted (listIterator (α := Nat) (N := Unit))
      (fun x => x * 2) (fun x => x % 2 == 0) (fun c x => c + x) ()
      listIterator_doneStable⟩

/-- C7 counterexample: `mapIterator` applied to an argument supporting
neither pull-producer capability fails with the runtime `TypeError` from the
missing `Symbol.iterator` call - not with the dedicated error whose message
states that the argument was neither a synchronous nor an asynchronous
pull-producer.  The claimed behaviour therefore fails for `mapIterator`
(and likewise `filterIterator`). -/
theorem mapIterator_invalidProducer_cex :
    mapIteratorImpl (α := Nat) (τ := Unit) (V := Nat) (W := Nat) (R := Unit)
        (N := Unit) (A := Unit) .invalid (fun v => v)
      = .error (.typeError "iterator[Symbol.iterator] is not a function")
    ∧ JsError.typeError "iterator[Symbol.iterator] is not a function"
      ≠ JsError.error
          "iterator parameter was neither an IterableIterator or an AsyncIterableIterator!" :=
  ⟨rfl, by simp⟩

/-- C7 (amended).  Only `reduceIterator` probes the argument's capabilities
and, when the argument supports neither, synchronously raises the dedicated
`Error` naming the missing capabilities; `mapIterator` and `filterIterator`
perform no capability check and fail with a `TypeError` from invoking the
missing `Symbol.iterator` method.  On capable arguments `reduceIterator`
dispatches to the matching mirror's reducing node. -/
theorem invalidProducer_dispatch {α τ V W C R N : Type} :
    (∀ (reducer : C → V → C),
      reduceIteratorImpl (α := α) (τ := τ) (R := R) (N := N) .invalid reducer
        = .error (.error
            "iterator parameter was neither an IterableIterator or an AsyncIterableIterator!"))
    ∧ (∀ (mapper : V → W),
      mapIteratorImpl (α := α) (τ := τ) (R := R) (N := N) (A := Unit) .invalid mapper
        = .error (.typeError "iterator[Symbol.iterator] is not a function"))
    ∧ (∀ (filterer : V → Bool),
      filterIteratorImpl (α := α) (τ := τ) (R := R) (N := N) (A := Unit) .invalid filterer
        = .error (.typeError "iterator[Symbol.iterator] is not a function"))
    ∧ (∀ (p : Iter α τ V R N) (reducer : C → V → C),
      reduceIteratorImpl (.sync p) reducer = .ok (.inl (reduceIterator p reducer)))
    ∧ (∀ (p : AsyncIter α τ V R N) (reducer : C → V → C),
      reduceIteratorImpl (.asyncOnly p) reducer
        = .ok (.inr (AsyncAugmentedIterators.ReducingIterator p reducer))) :=
  ⟨fun _ => rfl, fun _ => rfl, fun _ => rfl, fun _ _ => rfl, fun _ _ => rfl⟩

/-- C9 counterexample: the asynchronous facade's `.map` does not construct
and return a new asynchronous node - it throws `Error('TODO')`. -/
theorem asyncIterator_map_cex :
    AsyncIter.map (Iter.toAsync (listIterator (α := Nat) (N := Unit))) (fun v => v * 2)
      = .error (.error "TODO") :=
  rfl

/-- C9 (amended).  The asynchronous mirror provides only the reducing
behaviour: `reduceIterator` dispatches an asynchronous producer to the
asynchronous reducing node, whose transition function coincides with the
synchronous reducing node's (promises being resolved in this model), and the
asynchronous facade's `.reduce` wraps `this` in a new reducing node; its
`.map` and `.filter`, however, throw `Error('TODO')` instead of constructing
nodes. -/
theorem async_mirror_reduce_only {α τ V W C R N : Type} :
    (∀ (self : AsyncIter α τ V R N) (mapper : V → W),
      AsyncIter.map self mapper = .error (.error "TODO"))
    ∧ (∀ (self : AsyncIter α τ V R N) (filterer : V → Bool),
      AsyncIter.filter self filterer = .error (.error "TODO"))
    ∧ (∀ (self : AsyncIter α τ V R N) (reducer : C → V → C),
      AsyncIter.reduce self reducer
        = AsyncAugmentedIterators.ReducingIterator self reducer)
    ∧ (∀ (u : Iter α τ V R N) (reducer : C → V → C),
      (AsyncAugmentedIterators.ReducingIterator (Iter.toAsync u) reducer).toIter
        = reduceIterator u reducer)
    ∧ (∀ (p : AsyncIter α τ V R N) (reducer : C → V → C),
      reduceIteratorImpl (.asyncOnly p) reducer
        = .ok (.inr (AsyncAugmentedIterators.ReducingIterator p reducer))) :=
  ⟨fun _ _ => rfl, fun _ _ => rfl, fun _ _ => rfl, fun _ _ => rfl, fun _ _ => rfl⟩

theorem drainE_error {σ V R : Type} {next : σ → Except JsError (IterResult V R × σ)}
    {s : σ} {err : JsError} (fuel : Nat) (h : next s = .error err) :
    drainE next (fuel + 1) s = ([], some err) := by
  simp [drainE, h]

theorem drainE_yield {σ V R : Type} {next : σ → Except JsError (IterResult V R × σ)}
    {s s' : σ} {v : V} {e : Nat} (fuel : Nat) (h : next s = .ok (.yield v e, s')) :
    drainE next (fuel + 1) s
      = (v :: (drainE next fuel s').1, (drainE next fuel s').2) := by
  simp [drainE, h]

theorem drainE_map_throwAfter {V W N : Type} (f : V → W) (err : JsError) (dflt : N) :
    ∀ xs : List V,
      drainE (fun s => mappingNextE (throwAfterNext err) (fun v => .ok (f v)) s dflt)
        (xs.length + 1) xs = (xs.map f, some err) := by
  intro xs
  induction xs with
  | nil => exact drainE_error 0 rfl
  | cons v rest ih =>
    have hnext : (fun s => mappingNextE (throwAfterNext err) (fun v => Except.ok (f v)) s dflt)
        (v :: rest) = .ok (.yield (f v) 0, rest) := rfl
    rw [List.length_cons, drainE_yield (rest.length + 1) hnext, ih]
    simp

theorem eagerlyReduceE_throwAfter {V C : Type} (reducer : C → V → C) (err : JsError) :
    ∀ (xs : List V) (c : C),
      eagerlyReduceIteratorE (fun c v => .ok (reducer c v)) c xs (some err)
        = .error err := by
  intro xs
  induction xs with
  | nil => intro c; rfl
  | cons v rest ih =>
    intro c
    simp only [eagerlyReduceIteratorE]
    exact ih (reducer c v)

/-- C8.  Errors propagate unmodified: an exception raised by the upstream
pull, or by a user-supplied mapper/predicate/reducer, leaves each node's
pull (and the eager reducer) exactly as raised - no catching, wrapping or
retry; in particular a producer that throws after yielding its values makes
a mapping node drain to the mapped values followed by that exact error, and
makes the eager reducer re-raise that exact error. -/
theorem error_propagation {σ V W C R N : Type} (dflt : N) :
    (∀ (upstream : σ → N → Except JsError (IterResult V R × σ))
        (mapper : V → Except JsError W) (s : σ) (n : N) (err : JsError),
      upstream s n = .error err → mappingNextE upstream mapper s n = .error err)
    ∧ (∀ (upstream : σ → N → Except JsError (IterResult V R × σ))
        (mapper : V → Except JsError W) (s s' : σ) (n : N) (v : V) (e : Nat)
        (err : JsError),
      upstream s n = .ok (.yield v e, s') → mapper v = .error err →
      mappingNextE upstream mapper s n = .error err)
    ∧ (∀ (upstream : σ → N → Except JsError (IterResult V R × σ))
        (reducer : C → V → Except JsError C) (s : σ) (c : C) (n : N) (err : JsError),
      upstream s n = .error err → reducingNextE upstream reducer s c n = .error err)
    ∧ (∀ (upstream : σ → N → Except JsError (IterResult V R × σ))
        (reducer : C → V → Except JsError C) (s s' : σ) (c : C) (n : N) (v : V)
        (e : Nat) (err : JsError),
      upstream s n = .ok (.yield v e, s') → reducer c v = .error err →
      reducingNextE upstream reducer s c n = .error err)
    ∧ (∀ (upstream : σ → N → Except JsError (IterResult V R × σ))
        (filterer : V → Except JsError Bool) (fuel : Nat) (s : σ) (n : N)
        (err : JsError),
      upstream s n = .error err →
      filteringNextE upstream filterer (fuel + 1) s n = some (.error err))
    ∧ (∀ (upstream : σ → N → Except JsError (IterResult V R × σ))
        (filterer : V → Except JsError Bool) (fuel : Nat) (s s' : σ) (n : N)
        (v : V) (e : Nat) (err : JsError),
      upstream s n = .ok (.yield v e, s') → filterer v = .error err →
      filteringNextE upstream filterer (fuel + 1) s n = some (.error err))
    ∧ (∀ (xs : List V) (f : V → W) (err : JsError),
      drainE (fun s => mappingNextE (throwAfterNext err) (fun v => .ok (f v)) s dflt)
        (xs.length + 1) xs = (xs.map f, some err))
    ∧ (∀ (xs : List V) (reducer : C → V → C) (c : C) (err : JsError),
      eagerlyReduceIteratorE (fun c v => .ok (reducer c v)) c xs (some err)
        = .error err)
    ∧ (∀ (reducer : C → V → Except JsError C) (c : C) (v : V) (rest : List V)
        (eo : Option JsError) (err : JsError),
      reducer c v = .error err →
      eagerlyReduceIteratorE reducer c (v :: rest) eo = .error err) := by
  refine ⟨?_, ?_, ?_, ?_, ?_, ?_, ?_, ?_, ?_⟩
  · intro upstream mapper s n err h
    simp [mappingNextE, h]
  · intro upstream mapper s s' n v e err h hm
    simp [mappingNextE, h, hm]
  · intro upstream reducer s c n err h
    simp [reducingNextE, h]
  · intro upstream reducer s s' c n v e err h hr
    simp [reducingNextE, h, hr]
  · intro upstream filterer fuel s n err h
    simp [filteringNextE, h]
  · intro upstream filterer fuel s s' n v e err h hf
    simp [filteringNextE, h, hf]
  · exact fun xs f err => drainE_map_throwAfter f err dflt xs
  · exact fun xs reducer c err => eagerlyReduceE_throwAfter reducer err xs c
  · intro reducer c v rest eo err h
    simp [eagerlyReduceIteratorE, h]

theorem error_propagation_witness :
    (throwAfterNext (V := Nat) (N := Unit) (.error "boom") [] ()
        = .error (.error "boom")
      ∧ mappingNextE (throwAfterNext (.error "boom"))
          (fun v : Nat => .ok (v * 2)) [] ()
          = .error (.error "boom"))
    ∧ drainE (fun s => mappingNextE (throwAfterNext (.error "boom"))
          (fun v : Nat => .ok (v * 2)) s ()) 2 [7]
        = ([14], some (.error "boom"))
    ∧ eagerlyReduceIteratorE (fun (c v : Nat) => .ok (c + v)) 0 [7] (some (.error "boom"))
        = .error (.error "boom") := by
  obtain ⟨h1, h2, h3, h4, h5, h6, h7, h8, h9⟩ := error_propagation (σ := List Nat)
    (V := Nat) (W := Nat) (C := Nat) (R := Unit) (N := Unit) ()
  refine ⟨⟨rfl, h1 (throwAfterNext (.error "boom")) (fun v => .ok (v * 2)) [] ()
      (.error "boom") rfl⟩, ?_, ?_⟩
  · exact h7 [7] (fun v => v * 2) (.error "boom")
  · exact h8 [7] (fun c v => c + v) 0 (.error "boom")
